import Mathlib

/-!
Shallow embedding of `src/cdcr_inmate_scraper.py` (class `CDCRInmateScraper`).

The Python module builds, for each queried CDCR number, a dictionary with a
fixed key set (`cdcr_number`, six optional text fields, and a list
`board_of_parole_hearings`), and exports lists of such dictionaries to a flat
CSV, a JSON document, and an exploded per-hearing CSV.

Conventions of the embedding:
* A record dictionary is the structure `InmateRecord`; a key holding Python
  `None` is `Option.none`.  `search_cdcr_number` always constructs all eight
  keys, so the fixed-shape structure is faithful.
* An element of `board_of_parole_hearings` is either an already-structured
  hearing dictionary or a pre-serialized JSON string (the source's
  `isinstance(hearing, str)` branch): type `HearingEntry`.
* File writing is modelled by returning the file name and the full text that
  would be written; Python's `csv` module (excel dialect, QUOTE_MINIMAL,
  CRLF line terminator, `None` rendered as the empty string) and `json`
  module (`json.loads` / `json.dump`) are modelled explicitly below.
* An export that raises a Python exception is modelled with `Except`: the
  caller gets `.error` instead of a result.
-/

/-- One structured Board-of-Parole-Hearings row, as extracted by the
(schema-commented) `extract` call: four optional string fields. -/
structure Hearing where
  date : Option String
  action : Option String
  status : Option String
  outcome : Option String
deriving Repr, DecidableEq

/-- An element of `board_of_parole_hearings`: either a structured hearing
dictionary or a JSON-serialized string (handled by the
`isinstance(hearing, str)` branch of `export_parole_hearings_to_csv`). -/
inductive HearingEntry where
  | structured (h : Hearing)
  | serialized (s : String)
deriving Repr, DecidableEq

/-- The inmate dictionary built by `search_cdcr_number` (lines 64-73 of the
source): key `cdcr_number` plus six optional fields and the hearings list. -/
structure InmateRecord where
  cdcr_number : String
  name : Option String
  age : Option String
  admission_date : Option String
  current_location : Option String
  commitment_county : Option String
  parole_eligible_date : Option String
  board_of_parole_hearings : List HearingEntry
deriving Repr, DecidableEq

/-! ## The collector, as implemented

Every browser-automation step of `search_cdcr_number` exists only as a
comment, so the method as implemented returns the initial placeholder
dictionary unchanged.  `search_multiple_cdcr_numbers` maps it over the input
list (its prints and sleeps are side effects with no influence on the data). -/

/-- `CDCRInmateScraper.search_cdcr_number`, as implemented: returns the
placeholder dictionary of lines 64-73 (all optional fields `None`, empty
hearings list) because the scraping steps are comments. -/
def search_cdcr_number (cdcr_number : String) : InmateRecord :=
  { cdcr_number := cdcr_number
    name := none
    age := none
    admission_date := none
    current_location := none
    commitment_county := none
    parole_eligible_date := none
    board_of_parole_hearings := [] }

/-- `CDCRInmateScraper.search_multiple_cdcr_numbers`: one record per input
CDCR number, in input order (the returned `results` list). -/
def search_multiple_cdcr_numbers (cdcr_numbers : List String) : List InmateRecord :=
  cdcr_numbers.map search_cdcr_number

/-! ## The Python `csv` writer (excel dialect, QUOTE_MINIMAL) -/

/-- A cell value: Python's `csv` writer converts `None` to the empty string;
`hearing.get(key, '')` likewise yields `''` for a missing key.  Either way an
absent optional field becomes `""`. -/
def cellOf (o : Option String) : String := o.getD ""

/-- Does a field require quoting under QUOTE_MINIMAL?  Exactly when it
contains the delimiter, the quote character, or a line-terminator char. -/
def csvNeedsQuoting (s : String) : Bool :=
  s.data.any (fun c => c = ',' || c = '"' || c = '\r' || c = '\n')

/-- Quote one field as Python's `csv` writer does: wrap in double quotes and
double every embedded double quote; leave it alone when no quoting is needed. -/
def csvQuoteField (s : String) : String :=
  if csvNeedsQuoting s then
    "\"" ++ String.join (s.data.map (fun c =>
      if c = '"' then "\"\"" else String.singleton c)) ++ "\""
  else s

/-- One CSV line (without its CRLF terminator): quoted fields joined by `,`. -/
def csvRow (fields : List String) : String :=
  String.intercalate "," (fields.map csvQuoteField)

/-- Join CSV lines into file text: each line is terminated by CRLF
(the `csv` module's default `\r\n` line terminator). -/
def csvContentOfLines (lines : List String) : String :=
  String.join (lines.map (fun l => l ++ "\x0d\n"))

/-! ## Flat CSV export (`export_to_csv`, lines 181-200) -/

/-- The `fieldnames` list of `export_to_csv`. -/
def flatFieldnames : List String :=
  ["cdcr_number", "name", "age", "admission_date",
   "current_location", "commitment_county", "parole_eligible_date",
   "num_parole_hearings"]

/-- The cell values of one flat-CSV data row, in the order `writer.writerow`
receives them (line 191-200): raw `cdcr_number`, the six optional fields, and
`len(board_of_parole_hearings)` rendered as a decimal string. -/
def flatCells (r : InmateRecord) : List String :=
  [r.cdcr_number, cellOf r.name, cellOf r.age, cellOf r.admission_date,
   cellOf r.current_location, cellOf r.commitment_county,
   cellOf r.parole_eligible_date,
   toString r.board_of_parole_hearings.length]

/-- One rendered flat-CSV data row. -/
def flatRow (r : InmateRecord) : String := csvRow (flatCells r)

/-- The lines of the flat CSV file: header row then one data row per record. -/
def flatCsvLines (results : List InmateRecord) : List String :=
  csvRow flatFieldnames :: results.map flatRow

/-- Full text of the flat CSV file. -/
def flatCsvContent (results : List InmateRecord) : String :=
  csvContentOfLines (flatCsvLines results)

/-! ## JSON values (model of the Python `json` module)

`export_parole_hearings_to_csv` calls `json.loads` on string hearing
payloads, and `export_to_json` calls `json.dump` on the record list.  JSON
documents are modelled by the inductive `JsonVal`; Python number literals are
kept as their lexeme (no claim depends on numeric value identity). -/

/-- A parsed JSON document.  An object is the member list in document order;
as in a Python dict built by `json.loads`, a later duplicate key wins
(see `lookupLast`). -/
inductive JsonVal where
  | null
  | bool (b : Bool)
  | num (lexeme : String)
  | str (s : String)
  | arr (items : List JsonVal)
  | obj (members : List (String × JsonVal))
deriving Repr

/-- The opening-brace character, written by code point to keep brace
characters out of string literals. -/
def lbrace : Char := Char.ofNat 123

/-- The closing-brace character. -/
def rbrace : Char := Char.ofNat 125

/-- JSON insignificant whitespace (the four characters `json` skips). -/
def jsonWs (c : Char) : Bool :=
  c = ' ' || c = '\t' || c = '\n' || c = '\x0d'

/-- Drop leading JSON whitespace. -/
def skipWs (cs : List Char) : List Char := cs.dropWhile jsonWs

/-- Value of one hexadecimal digit, if `c` is one. -/
def hexDigitVal (c : Char) : Option Nat :=
  if '0' ≤ c ∧ c ≤ '9' then some (c.toNat - 48)
  else if 'a' ≤ c ∧ c ≤ 'f' then some (c.toNat - 87)
  else if 'A' ≤ c ∧ c ≤ 'F' then some (c.toNat - 55)
  else none

/-- Parse the body of a JSON string literal (the opening quote already
consumed), returning the decoded text and the remaining input.  Handles the
eight escape sequences and `\uXXXX`; a raw control character is rejected as
in Python's strict mode.  The `fuel` argument only bounds recursion and is
instantiated generously by `jsonParse`. -/
def parseStrBody : Nat → List Char → Option (String × List Char)
  | 0, _ => none
  | Nat.succ fuel, cs =>
    match cs with
    | [] => none
    | c :: rest =>
      if c = '"' then some ("", rest)
      else if c = '\\' then
        match rest with
        | [] => none
        | e :: rest2 =>
          let piece? : Option (String × List Char) :=
            if e = '"' then some ("\"", rest2)
            else if e = '\\' then some ("\\", rest2)
            else if e = '/' then some ("/", rest2)
            else if e = 'b' then some ("\x08", rest2)
            else if e = 'f' then some ("\x0c", rest2)
            else if e = 'n' then some ("\n", rest2)
            else if e = 'r' then some ("\x0d", rest2)
            else if e = 't' then some ("\t", rest2)
            else if e = 'u' then
              match rest2 with
              | a :: b :: c2 :: d :: rest3 =>
                match hexDigitVal a, hexDigitVal b, hexDigitVal c2, hexDigitVal d with
                | some x, some y, some z, some w =>
                    some (String.singleton (Char.ofNat (((x * 16 + y) * 16 + z) * 16 + w)), rest3)
                | _, _, _, _ => none
              | _ => none
            else none
          match piece? with
          | none => none
          | some (piece, rest3) =>
            match parseStrBody fuel rest3 with
            | none => none
            | some (s, rest4) => some (piece ++ s, rest4)
      else if c.toNat < 32 then none
      else
        match parseStrBody fuel rest with
        | none => none
        | some (s, rest2) => some (String.singleton c ++ s, rest2)

/-- Lex a JSON number (`-? int frac? exp?`, no leading zeros), returning its
lexeme and the remaining input. -/
def parseNumber (cs : List Char) : Option (String × List Char) :=
  let (sign, cs1) :=
    match cs with
    | c :: r => if c = '-' then ([c], r) else (([] : List Char), cs)
    | [] => (([] : List Char), cs)
  let intPart := cs1.takeWhile Char.isDigit
  let cs2 := cs1.dropWhile Char.isDigit
  if intPart.isEmpty then none
  else if 1 < intPart.length ∧ intPart.headD '0' = '0' then none
  else
    let (fracPart, cs3) :=
      match cs2 with
      | c :: r =>
        if c = '.' then
          let ds := r.takeWhile Char.isDigit
          if ds.isEmpty then (([] : List Char), cs2)
          else (c :: ds, r.dropWhile Char.isDigit)
        else (([] : List Char), cs2)
      | [] => (([] : List Char), cs2)
    let (expPart, cs4) :=
      match cs3 with
      | c :: r =>
        if c = 'e' ∨ c = 'E' then
          let (sgn, r2) :=
            match r with
            | c2 :: r3 => if c2 = '+' ∨ c2 = '-' then ([c2], r3) else (([] : List Char), r)
            | [] => (([] : List Char), r)
          let ds := r2.takeWhile Char.isDigit
          if ds.isEmpty then (([] : List Char), cs3)
          else (c :: (sgn ++ ds), r2.dropWhile Char.isDigit)
        else (([] : List Char), cs3)
      | [] => (([] : List Char), cs3)
    some (String.mk (sign ++ intPart ++ fracPart ++ expPart), cs4)

mutual

/-- Parse one JSON value (model of the `json.loads` grammar). -/
def parseVal : Nat → List Char → Option (JsonVal × List Char)
  | 0, _ => none
  | Nat.succ fuel, cs =>
    match skipWs cs with
    | [] => none
    | c :: rest =>
      if c = '"' then
        match parseStrBody (rest.length + 1) rest with
        | some (s, rest2) => some (JsonVal.str s, rest2)
        | none => none
      else if c = lbrace then parseObjBody fuel rest
      else if c = '[' then parseArrBody fuel rest
      else if c = 'n' then
        match rest with
        | 'u' :: 'l' :: 'l' :: rest2 => some (JsonVal.null, rest2)
        | _ => none
      else if c = 't' then
        match rest with
        | 'r' :: 'u' :: 'e' :: rest2 => some (JsonVal.bool true, rest2)
        | _ => none
      else if c = 'f' then
        match rest with
        | 'a' :: 'l' :: 's' :: 'e' :: rest2 => some (JsonVal.bool false, rest2)
        | _ => none
      else
        match parseNumber (c :: rest) with
        | some (lexeme, rest2) => some (JsonVal.num lexeme, rest2)
        | none => none

/-- Parse an array body, the opening bracket already consumed. -/
def parseArrBody : Nat → List Char → Option (JsonVal × List Char)
  | 0, _ => none
  | Nat.succ fuel, cs =>
    match skipWs cs with
    | [] => none
    | c :: rest =>
      if c = ']' then some (JsonVal.arr [], rest)
      else
        match parseArrItems fuel cs with
        | some (items, rest2) => some (JsonVal.arr items, rest2)
        | none => none

/-- Parse one or more comma-separated array items up to the closing bracket. -/
def parseArrItems : Nat → List Char → Option (List JsonVal × List Char)
  | 0, _ => none
  | Nat.succ fuel, cs =>
    match parseVal fuel cs with
    | none => none
    | some (v, rest) =>
      match skipWs rest with
      | [] => none
      | c :: rest2 =>
        if c = ',' then
          match parseArrItems fuel rest2 with
          | some (vs, rest3) => some (v :: vs, rest3)
          | none => none
        else if c = ']' then some ([v], rest2)
        else none

/-- Parse an object body, the opening brace already consumed. -/
def parseObjBody : Nat → List Char → Option (JsonVal × List Char)
  | 0, _ => none
  | Nat.succ fuel, cs =>
    match skipWs cs with
    | [] => none
    | c :: rest =>
      if c = rbrace then some (JsonVal.obj [], rest)
      else
        match parseObjItems fuel cs with
        | some (members, rest2) => some (JsonVal.obj members, rest2)
        | none => none

/-- Parse one or more `"key": value` members up to the closing brace. -/
def parseObjItems : Nat → List Char → Option (List (String × JsonVal) × List Char)
  | 0, _ => none
  | Nat.succ fuel, cs =>
    match skipWs cs with
    | [] => none
    | c :: rest =>
      if c = '"' then
        match parseStrBody (rest.length + 1) rest with
        | none => none
        | some (k, rest2) =>
          match skipWs rest2 with
          | ':' :: rest3 =>
            match parseVal fuel rest3 with
            | none => none
            | some (v, rest4) =>
              match skipWs rest4 with
              | [] => none
              | c2 :: rest5 =>
                if c2 = ',' then
                  match parseObjItems fuel rest5 with
                  | some (members, rest6) => some ((k, v) :: members, rest6)
                  | none => none
                else if c2 = rbrace then some ([(k, v)], rest5)
                else none
          | _ => none
      else none

end

/-- `json.loads`: parse a complete document, requiring only whitespace after
the value.  The fuel bound is generous: each nesting level consumes input. -/
def jsonParse (s : String) : Option JsonVal :=
  match parseVal (4 * s.length + 16) s.data with
  | some (v, rest) => if (skipWs rest).isEmpty then some v else none
  | none => none

/-- Last-wins association lookup: the value a Python dict built from these
members (in order) holds under key `k`. -/
def lookupLast (members : List (String × JsonVal)) (k : String) : Option JsonVal :=
  match members with
  | [] => none
  | (k2, v) :: rest =>
    match lookupLast rest k with
    | some v2 => some v2
    | none => if k2 = k then some v else none

/-! ## `json.dump(results, jsonfile, indent=2, ensure_ascii=False)` -/

/-- `n` spaces of indentation. -/
def spaces (n : Nat) : String := String.join (List.replicate n " ")

/-- One lowercase hexadecimal digit character. -/
def hexDigitChar (k : Nat) : Char :=
  if k < 10 then Char.ofNat (48 + k) else Char.ofNat (87 + k)

/-- Four-digit lowercase hexadecimal, as in Python's `\uXXXX` escapes. -/
def hex4 (n : Nat) : String :=
  String.singleton (hexDigitChar (n / 4096 % 16)) ++
  String.singleton (hexDigitChar (n / 256 % 16)) ++
  String.singleton (hexDigitChar (n / 16 % 16)) ++
  String.singleton (hexDigitChar (n % 16))

/-- Escape one character inside a JSON string literal the way `json.dump`
with `ensure_ascii=False` does: quote, backslash and control characters only. -/
def jsonEscapeChar (c : Char) : String :=
  if c = '"' then "\\\""
  else if c = '\\' then "\\\\"
  else if c = '\n' then "\\n"
  else if c = '\x0d' then "\\r"
  else if c = '\t' then "\\t"
  else if c = '\x08' then "\\b"
  else if c = '\x0c' then "\\f"
  else if c.toNat < 32 then "\\u" ++ hex4 c.toNat
  else String.singleton c

/-- Render a string as a JSON string literal. -/
def jsonQuote (s : String) : String :=
  "\"" ++ String.join (s.data.map jsonEscapeChar) ++ "\""

mutual

/-- Render a JSON value at indentation `ind`, as `json.dump(·, indent=2)`
prints it (cosmetic whitespace exactly as Python's: items on their own lines,
two extra spaces per nesting level, no trailing newline). -/
def renderVal (ind : Nat) : JsonVal → String
  | JsonVal.null => "null"
  | JsonVal.bool true => "true"
  | JsonVal.bool false => "false"
  | JsonVal.num lexeme => lexeme
  | JsonVal.str s => jsonQuote s
  | JsonVal.arr [] => "[]"
  | JsonVal.arr (v :: vs) =>
      "[\n" ++ String.intercalate ",\n" (renderItems (ind + 2) (v :: vs)) ++
      "\n" ++ spaces ind ++ "]"
  | JsonVal.obj [] => "\x7b\x7d"
  | JsonVal.obj (p :: ps) =>
      "\x7b\n" ++ String.intercalate ",\n" (renderPairs (ind + 2) (p :: ps)) ++
      "\n" ++ spaces ind ++ "\x7d"

/-- Render array items, each on its own indented line. -/
def renderItems (ind : Nat) : List JsonVal → List String
  | [] => []
  | v :: vs => (spaces ind ++ renderVal ind v) :: renderItems ind vs

/-- Render object members, each on its own indented line. -/
def renderPairs (ind : Nat) : List (String × JsonVal) → List String
  | [] => []
  | (k, v) :: ps =>
      (spaces ind ++ jsonQuote k ++ ": " ++ renderVal ind v) :: renderPairs ind ps

end

/-! ## JSON serialization of the record list (`export_to_json`)

`json.dump` serializes each inmate dictionary with its keys in insertion
order, which is the construction order of `search_cdcr_number` (lines 64-73).
A `None` value serializes as `null`; a structured hearing dictionary as a
nested object; a pre-serialized string entry as a JSON string. -/

/-- A `None`-or-string Python value as JSON. -/
def optToJson : Option String → JsonVal
  | none => JsonVal.null
  | some s => JsonVal.str s

/-- The named optional fields of the inmate dictionary, in insertion order
(between `cdcr_number` and `board_of_parole_hearings`). -/
def recordOptionalPairs (r : InmateRecord) : List (String × Option String) :=
  [("name", r.name), ("age", r.age), ("admission_date", r.admission_date),
   ("current_location", r.current_location),
   ("commitment_county", r.commitment_county),
   ("parole_eligible_date", r.parole_eligible_date)]

/-- The named fields of a structured hearing dictionary, in the order of the
extraction schema (`date`, `action`, `status`, `outcome`). -/
def hearingPairs (h : Hearing) : List (String × Option String) :=
  [("date", h.date), ("action", h.action), ("status", h.status),
   ("outcome", h.outcome)]

/-- A structured hearing dictionary as a JSON object. -/
def hearingToJson (h : Hearing) : JsonVal :=
  JsonVal.obj ((hearingPairs h).map (fun p => (p.1, optToJson p.2)))

/-- One `board_of_parole_hearings` element as JSON: a dict dumps as an
object, a pre-serialized string dumps as a JSON string. -/
def entryToJson : HearingEntry → JsonVal
  | HearingEntry.structured h => hearingToJson h
  | HearingEntry.serialized s => JsonVal.str s

/-- The member list of one serialized inmate dictionary. -/
def recordMembers (r : InmateRecord) : List (String × JsonVal) :=
  ("cdcr_number", JsonVal.str r.cdcr_number) ::
  (recordOptionalPairs r).map (fun p => (p.1, optToJson p.2)) ++
  [("board_of_parole_hearings",
    JsonVal.arr (r.board_of_parole_hearings.map entryToJson))]

/-- One inmate dictionary as a JSON object. -/
def recordToJson (r : InmateRecord) : JsonVal := JsonVal.obj (recordMembers r)

/-- The whole document `export_to_json` dumps: the array of records. -/
def recordsToJson (results : List InmateRecord) : JsonVal :=
  JsonVal.arr (results.map recordToJson)

/-- Full text of the JSON file written by `export_to_json`. -/
def jsonContent (results : List InmateRecord) : String :=
  renderVal 0 (recordsToJson results)

/-! ## Reading the JSON document back into records

Decoders for the round-trip property: reading a serialized document back as
the dictionaries `json.loads` would reconstruct, then as `InmateRecord`s. -/

/-- Read back an optional text field: `null` is an absent field, a string is
a present one; any other shape is not a record field. -/
def optFromJson : JsonVal → Option (Option String)
  | JsonVal.null => some none
  | JsonVal.str s => some (some s)
  | _ => none

/-- Read back one structured hearing from an object's member list. -/
def hearingFromMembers (members : List (String × JsonVal)) : Option Hearing := do
  let d ← optFromJson (← lookupLast members "date")
  let a ← optFromJson (← lookupLast members "action")
  let st ← optFromJson (← lookupLast members "status")
  let o ← optFromJson (← lookupLast members "outcome")
  some ⟨d, a, st, o⟩

/-- Read back one `board_of_parole_hearings` element. -/
def entryFromJson : JsonVal → Option HearingEntry
  | JsonVal.obj members => (hearingFromMembers members).map HearingEntry.structured
  | JsonVal.str s => some (HearingEntry.serialized s)
  | _ => none

/-- Read back one inmate record from a serialized object. -/
def recordFromJson : JsonVal → Option InmateRecord
  | JsonVal.obj members => do
    let cn ←
      match lookupLast members "cdcr_number" with
      | some (JsonVal.str s) => some s
      | _ => none
    let nm ← optFromJson (← lookupLast members "name")
    let ag ← optFromJson (← lookupLast members "age")
    let ad ← optFromJson (← lookupLast members "admission_date")
    let cl ← optFromJson (← lookupLast members "current_location")
    let cc ← optFromJson (← lookupLast members "commitment_county")
    let pe ← optFromJson (← lookupLast members "parole_eligible_date")
    let bd ←
      match lookupLast members "board_of_parole_hearings" with
      | some (JsonVal.arr items) => items.mapM entryFromJson
      | _ => none
    some ⟨cn, nm, ag, ad, cl, cc, pe, bd⟩
  | _ => none

/-- Read back the whole document as a record list. -/
def recordsFromJson : JsonVal → Option (List InmateRecord)
  | JsonVal.arr items => items.mapM recordFromJson
  | _ => none

/-! ## Exploded hearings export (`export_parole_hearings_to_csv`, 249-267)

The loop writes one row per (record, hearing) pair.  A string payload first
goes through `json.loads`; a payload that does not decode to a JSON object
raises (`json.JSONDecodeError` from `json.loads`, or `AttributeError` at
`hearing.get` when the decoded value is not a dict), which aborts the export:
the caller gets the exception instead of the file path. -/

/-- The csv text of one field of a decoded hearing dict: missing key and
`null` both give `''`; a string gives its text; any other JSON value is
written via `str()` (its text approximated here by the JSON rendering, which
no stated property depends on). -/
def dictGetCell (members : List (String × JsonVal)) (k : String) : String :=
  match lookupLast members k with
  | none => ""
  | some JsonVal.null => ""
  | some (JsonVal.str s) => s
  | some v => renderVal 0 v

/-- Does a string payload decode (via `json.loads`) to a JSON object, the
only shape the export's `hearing.get` calls accept? -/
def decodesToObj (s : String) : Bool :=
  match jsonParse s with
  | some (JsonVal.obj _) => true
  | _ => false

/-- The cells of the exploded-CSV row for one hearings-list element of
record `r`, or the exception the loop body raises on it. -/
def entryRow (r : InmateRecord) : HearingEntry → Except String (List String)
  | HearingEntry.structured h =>
      Except.ok [r.cdcr_number, cellOf r.name, cellOf h.date, cellOf h.action,
                 cellOf h.status, cellOf h.outcome]
  | HearingEntry.serialized s =>
      match jsonParse s with
      | none => Except.error "json.decoder.JSONDecodeError"
      | some (JsonVal.obj members) =>
          Except.ok [r.cdcr_number, cellOf r.name, dictGetCell members "date",
                     dictGetCell members "action", dictGetCell members "status",
                     dictGetCell members "outcome"]
      | some _ => Except.error "AttributeError"

/-- All exploded rows contributed by one record (one per hearings-list
element, in list order), or the first exception raised. -/
def recordParoleRows (r : InmateRecord) : Except String (List (List String)) :=
  r.board_of_parole_hearings.mapM (entryRow r)

/-- All data rows of the exploded export, over the whole record list, or the
first exception raised. -/
def exportParoleRows (results : List InmateRecord) :
    Except String (List (List String)) :=
  (results.mapM recordParoleRows).map List.flatten

/-- The `fieldnames` list of `export_parole_hearings_to_csv`. -/
def paroleFieldnames : List String :=
  ["cdcr_number", "inmate_name", "date", "action", "status", "outcome"]

/-- The lines of the exploded CSV file (header then data rows), or the
exception that aborted the export. -/
def explodedCsvLines (results : List InmateRecord) : Except String (List String) :=
  (exportParoleRows results).map
    (fun rows => csvRow paroleFieldnames :: rows.map csvRow)

/-- Full text of the exploded CSV file, or the aborting exception. -/
def explodedCsvContent (results : List InmateRecord) : Except String String :=
  (explodedCsvLines results).map csvContentOfLines

/-! ## The scraper instance and the export entry points

A `CDCRInmateScraper` instance carries `self.results` (set by
`search_multiple_cdcr_numbers`) and `self.timestamp` (fixed at construction).
Each export reads them only to fill in defaulted arguments, and returns the
output filename together with the text written to it. -/

/-- The mutable state of a `CDCRInmateScraper` instance. -/
structure CDCRInmateScraper where
  results : List InmateRecord
  timestamp : String
deriving Repr, DecidableEq

/-- `export_to_csv(self, results=None, filename=None)`: resolve defaulted
arguments from the instance, then return (filename, file text). -/
def export_to_csv (self : CDCRInmateScraper)
    (results : Option (List InmateRecord)) (filename : Option String) :
    String × String :=
  let rs := results.getD self.results
  let fn := filename.getD ("cdcr_inmates_" ++ self.timestamp ++ ".csv")
  (fn, flatCsvContent rs)

/-- `export_to_json(self, results=None, filename=None)`. -/
def export_to_json (self : CDCRInmateScraper)
    (results : Option (List InmateRecord)) (filename : Option String) :
    String × String :=
  let rs := results.getD self.results
  let fn := filename.getD ("cdcr_inmates_" ++ self.timestamp ++ ".json")
  (fn, jsonContent rs)

/-- `export_parole_hearings_to_csv(self, results=None, filename=None)`:
either (filename, file text) or the exception that aborted the export. -/
def export_parole_hearings_to_csv (self : CDCRInmateScraper)
    (results : Option (List InmateRecord)) (filename : Option String) :
    Except String (String × String) :=
  let rs := results.getD self.results
  let fn := filename.getD ("cdcr_parole_hearings_" ++ self.timestamp ++ ".csv")
  (explodedCsvContent rs).map (fun content => (fn, content))

/-! ## The external page driver (spec-modelled)

The browser automation that would fill in the record fields exists only as
comments in `search_cdcr_number`; the spec (§4.1, §6, §7) contracts it as an
opaque capability and fixes the failure policy. -/

/-- Modelled from the spec: the key-value bag the external "page driver"
returns for one identifier (§6: optional keys for each record field and an
optional array of hearing bags).  The commented extraction schema of
`search_cdcr_number` (steps 6 and 8) names exactly these keys. -/
structure RawBag where
  name : Option String
  age : Option String
  admissionDate : Option String
  currentLocation : Option String
  commitmentCounty : Option String
  paroleEligibleDate : Option String
  boardOfParoleHearings : Option (List Hearing)
deriving Repr, DecidableEq

/-- Modelled from the spec: `search_cdcr_number` with the commented driver
steps restored, the driver injected as `fetch` (§9).  On a failed lookup the
placeholder record is returned unchanged (§4.1 failure policy,
continue-on-error); on success the bag's fields overwrite the placeholder,
with a missing hearings array defaulting to `[]` as in the commented
`detailed_data.get("boardOfParoleHearings", [])`. -/
def search_cdcr_number_driver (fetch : String → Option RawBag)
    (cdcr_number : String) : InmateRecord :=
  match fetch cdcr_number with
  | none => search_cdcr_number cdcr_number
  | some bag =>
    { cdcr_number := cdcr_number
      name := bag.name
      age := bag.age
      admission_date := bag.admissionDate
      current_location := bag.currentLocation
      commitment_county := bag.commitmentCounty
      parole_eligible_date := bag.paroleEligibleDate
      board_of_parole_hearings :=
        (bag.boardOfParoleHearings.getD []).map HearingEntry.structured }

/-- Modelled from the spec: `search_multiple_cdcr_numbers` over the injected
driver — sequential, one record per identifier, input order preserved. -/
def search_multiple_cdcr_numbers_driver (fetch : String → Option RawBag)
    (cdcr_numbers : List String) : List InmateRecord :=
  cdcr_numbers.map (search_cdcr_number_driver fetch)

/-! ## Helper lemmas -/

/-- `List.mapM`'s loop over `Except` fails whenever the action fails on some
element of the remaining list, whatever the accumulator. -/
theorem except_mapM_loop_error {α β : Type} (f : α → Except String β)
    (x : α) (m : String) (hf : f x = Except.error m) (l : List α) :
    ∀ acc : List β, x ∈ l →
      ∃ m2, List.mapM.loop f l acc = Except.error m2 := by
  induction l with
  | nil => intro acc hx; cases hx
  | cons a as ih =>
    intro acc hx
    show ∃ m2, (f a >>= fun b => List.mapM.loop f as (b :: acc)) = Except.error m2
    cases hfa : f a with
    | error m3 => exact ⟨m3, rfl⟩
    | ok b =>
      rcases List.mem_cons.mp hx with h | h
      · subst h; rw [hf] at hfa; cases hfa
      · rcases ih (b :: acc) h with ⟨m2, hm2⟩
        exact ⟨m2, hm2⟩

/-- Mapping a monadic `Except` action over a list fails whenever it fails on
some element (with the message of whichever failure is hit first). -/
theorem list_mapM_error_of_mem {α β : Type} (f : α → Except String β)
    (l : List α) (x : α) (hx : x ∈ l) (m : String)
    (hf : f x = Except.error m) : ∃ m2, l.mapM f = Except.error m2 :=
  except_mapM_loop_error f x m hf l [] hx

/-- `List.mapM`'s loop over `Option`, run on `l.map g` with a total left
inverse of `g`, succeeds and recovers `l` after the accumulator. -/
theorem option_mapM_loop_map {α β : Type} (f : β → Option α) (g : α → β)
    (hfg : ∀ x, f (g x) = some x) (l : List α) :
    ∀ acc : List α,
      List.mapM.loop f (l.map g) acc = some (acc.reverse ++ l) := by
  induction l with
  | nil => intro acc; simp [List.mapM.loop]
  | cons a as ih =>
    intro acc
    show (f (g a) >>= fun b => List.mapM.loop f (as.map g) (b :: acc)) =
      some (acc.reverse ++ a :: as)
    rw [hfg a]
    show List.mapM.loop f (as.map g) (a :: acc) = some (acc.reverse ++ a :: as)
    rw [ih (a :: acc)]
    simp

/-- Mapping a total left inverse of `g` over `l.map g` recovers `l`. -/
theorem list_mapM_map_some {α β : Type} (f : β → Option α) (g : α → β)
    (hfg : ∀ x, f (g x) = some x) (l : List α) :
    (l.map g).mapM f = some l := by
  have h := option_mapM_loop_map f g hfg l []
  simpa using h

/-- Reading back a serialized optional field recovers it. -/
theorem optFromJson_optToJson (o : Option String) :
    optFromJson (optToJson o) = some o := by
  cases o <;> rfl

/-- Reading back a serialized hearings-list element recovers it. -/
theorem entryFromJson_entryToJson (e : HearingEntry) :
    entryFromJson (entryToJson e) = some e := by
  cases e with
  | structured h =>
    obtain ⟨d, a, s, o⟩ := h
    simp [entryToJson, hearingToJson, hearingPairs, entryFromJson,
          hearingFromMembers, lookupLast, optFromJson_optToJson]
  | serialized s => rfl

/-- Reading back a serialized inmate record recovers it field-for-field. -/
theorem recordFromJson_recordToJson (r : InmateRecord) :
    recordFromJson (recordToJson r) = some r := by
  obtain ⟨cn, nm, ag, ad, cl, cc, pe, bd⟩ := r
  simp [recordToJson, recordMembers, recordOptionalPairs, recordFromJson,
        lookupLast, optFromJson_optToJson,
        list_mapM_map_some entryFromJson entryToJson entryFromJson_entryToJson,
        option_mapM_loop_map entryFromJson entryToJson entryFromJson_entryToJson]

/-! ## The claims -/

/-- C1: for every non-empty list of CDCR numbers,
`search_multiple_cdcr_numbers` returns a list of the same length whose `i`-th
record carries the `i`-th input identifier as its `cdcr_number`. -/
theorem collector_preserves_length_and_order (cdcr_numbers : List String)
    (_hne : cdcr_numbers ≠ []) :
    (search_multiple_cdcr_numbers cdcr_numbers).length = cdcr_numbers.length ∧
    ∀ i : Nat, i < cdcr_numbers.length →
      ((search_multiple_cdcr_numbers cdcr_numbers)[i]?).map
          InmateRecord.cdcr_number = cdcr_numbers[i]? := by
  constructor
  · simp [search_multiple_cdcr_numbers]
  · intro i hi
    rw [search_multiple_cdcr_numbers, List.getElem?_map]
    cases cdcr_numbers[i]? <;> rfl

/-- C1 witness: the usage example's batch `["D54803", "T97214"]`. -/
theorem collector_preserves_length_and_order_witness :
    (search_multiple_cdcr_numbers ["D54803", "T97214"]).length = 2 ∧
    ((search_multiple_cdcr_numbers ["D54803", "T97214"])[0]?).map
        InmateRecord.cdcr_number = some "D54803" := by
  have h := collector_preserves_length_and_order ["D54803", "T97214"] (by decide)
  exact ⟨h.1, by rw [h.2 0 (by decide)]; rfl⟩

/-- C10: as implemented (the automation steps are comments),
`search_cdcr_number` returns the placeholder record — input identifier, six
absent fields, empty hearings list — and every collector output is a map of
it over the inputs, hence consists only of such placeholder records. -/
theorem implemented_search_returns_placeholder :
    (∀ c : String, search_cdcr_number c =
      { cdcr_number := c, name := none, age := none, admission_date := none,
        current_location := none, commitment_county := none,
        parole_eligible_date := none, board_of_parole_hearings := [] }) ∧
    (∀ cdcr_numbers : List String,
      search_multiple_cdcr_numbers cdcr_numbers =
        cdcr_numbers.map search_cdcr_number) :=
  ⟨fun _ => rfl, fun _ => rfl⟩

/-- C2: a record with an empty hearings list contributes zero data rows to
the exploded hearings export, and its `num_parole_hearings` cell (the eighth
column of its flat-CSV row) is `"0"`. -/
theorem zero_hearings_zero_rows_and_zero_count
    (results : List InmateRecord) (r : InmateRecord) (_hmem : r ∈ results)
    (hb : r.board_of_parole_hearings = []) :
    recordParoleRows r = Except.ok [] ∧ (flatCells r)[7]? = some "0" := by
  constructor
  · simp only [recordParoleRows, hb]
    rfl
  · simp only [flatCells, hb]
    rfl

/-- C2 witness: a concrete placeholder record inside a one-record list. -/
theorem zero_hearings_zero_rows_and_zero_count_witness :
    recordParoleRows
        ⟨"D54803", none, none, none, none, none, none, []⟩ = Except.ok [] ∧
    (flatCells ⟨"D54803", none, none, none, none, none, none, []⟩)[7]? =
      some "0" :=
  zero_hearings_zero_rows_and_zero_count
    [⟨"D54803", none, none, none, none, none, none, []⟩]
    ⟨"D54803", none, none, none, none, none, none, []⟩ (by simp) rfl

/-- C7: with the record list and filename supplied explicitly, each of the
three exports is a pure function of them — its output is byte-identical
across calls and independent of the instance state (`self.results`,
`self.timestamp`). -/
theorem exports_deterministic_and_state_independent
    (self1 self2 : CDCRInmateScraper) (results : List InmateRecord)
    (filename : String) :
    export_to_csv self1 (some results) (some filename) =
      export_to_csv self2 (some results) (some filename) ∧
    export_to_json self1 (some results) (some filename) =
      export_to_json self2 (some results) (some filename) ∧
    export_parole_hearings_to_csv self1 (some results) (some filename) =
      export_parole_hearings_to_csv self2 (some results) (some filename) :=
  ⟨rfl, rfl, rfl⟩

/-- The documents this exporter emits use only `null`, strings, arrays and
objects (no numbers or booleans): the subgrammar over which the parser is
proved to invert the renderer. -/
inductive GoodVal : JsonVal → Prop where
  | null : GoodVal JsonVal.null
  | str (s : String) : GoodVal (JsonVal.str s)
  | arr (items : List JsonVal) (h : ∀ v ∈ items, GoodVal v) :
      GoodVal (JsonVal.arr items)
  | obj (members : List (String × JsonVal))
      (h : ∀ p ∈ members, GoodVal p.2) : GoodVal (JsonVal.obj members)

/-- C4: an absent optional field renders as the empty string in the CSV
exports and as `null` (key present) in the JSON export — never as the
literal text `"None"` and never omitted; and a decoded hearing dict renders
a missing or `null` field as the empty csv cell. -/
theorem absent_fields_empty_in_csv_null_in_json :
    (∀ (r : InmateRecord) (k : String) (o : Option String),
      (k, o) ∈ recordOptionalPairs r → o = none →
        cellOf o = "" ∧ cellOf o ≠ "None" ∧
        lookupLast (recordMembers r) k = some JsonVal.null) ∧
    (∀ (h : Hearing) (k : String) (o : Option String),
      (k, o) ∈ hearingPairs h → o = none →
        cellOf o = "" ∧ cellOf o ≠ "None" ∧
        lookupLast ((hearingPairs h).map (fun p => (p.1, optToJson p.2))) k =
          some JsonVal.null) ∧
    (∀ (members : List (String × JsonVal)) (k : String),
      lookupLast members k = none ∨ lookupLast members k = some JsonVal.null →
        dictGetCell members k = "") := by
  refine ⟨?_, ?_, ?_⟩
  · intro r k o hk ho
    subst ho
    refine ⟨rfl, by decide, ?_⟩
    simp only [recordOptionalPairs, List.mem_cons, List.not_mem_nil, or_false,
      Prod.mk.injEq] at hk
    rcases hk with ⟨hk1, hk2⟩ | ⟨hk1, hk2⟩ | ⟨hk1, hk2⟩ | ⟨hk1, hk2⟩ |
      ⟨hk1, hk2⟩ | ⟨hk1, hk2⟩ <;>
      subst hk1 <;>
      simp [recordMembers, recordOptionalPairs, lookupLast, ← hk2, optToJson]
  · intro h k o hk ho
    subst ho
    refine ⟨rfl, by decide, ?_⟩
    simp only [hearingPairs, List.mem_cons, List.not_mem_nil, or_false,
      Prod.mk.injEq] at hk
    rcases hk with ⟨hk1, hk2⟩ | ⟨hk1, hk2⟩ | ⟨hk1, hk2⟩ | ⟨hk1, hk2⟩ <;>
      subst hk1 <;>
      simp [hearingPairs, lookupLast, ← hk2, optToJson]
  · intro members k hk
    rcases hk with hk | hk <;> simp [dictGetCell, hk]

/-- C4 witness: a record with all optional fields absent, a hearing with an
absent date, and a decoded dict carrying an explicit `null`. -/
theorem absent_fields_empty_in_csv_null_in_json_witness :
    (cellOf none = "" ∧ cellOf none ≠ "None" ∧
      lookupLast
        (recordMembers ⟨"D54803", none, none, none, none, none, none, []⟩)
        "name" = some JsonVal.null) ∧
    (cellOf none = "" ∧ cellOf none ≠ "None" ∧
      lookupLast
        ((hearingPairs ⟨none, some "a", some "s", some "o"⟩).map
          (fun p => (p.1, optToJson p.2))) "date" = some JsonVal.null) ∧
    dictGetCell [("date", JsonVal.null)] "date" = "" :=
  ⟨absent_fields_empty_in_csv_null_in_json.1
      ⟨"D54803", none, none, none, none, none, none, []⟩ "name" none
      (by simp [recordOptionalPairs]) rfl,
   absent_fields_empty_in_csv_null_in_json.2.1
      ⟨none, some "a", some "s", some "o"⟩ "date" none
      (by simp [hearingPairs]) rfl,
   absent_fields_empty_in_csv_null_in_json.2.2
      [("date", JsonVal.null)] "date" (Or.inr rfl)⟩

/-- C5 counterexample: for the spec's example record (name `Doe, John`, age
`45`, no hearings) the flat CSV does not contain the claimed data row
`D54803,Doe, John,45,,,,0` — the name cell is quoted by the csv writer, and
the row has four empty cells between the age and the hearing count. -/
theorem flat_example_row_not_as_claimed :
    "D54803,Doe, John,45,,,,0" ∉
      flatCsvLines
        [⟨"D54803", some "Doe, John", some "45", none, none, none, none, []⟩] := by
  decide

/-- C5 amended: the flat CSV for the example consists of the header and the
data row `D54803,"Doe, John",45,,,,,0` (name quoted, four empty cells), and
the exploded hearings CSV consists of the header alone — zero data rows for
D54803. -/
theorem flat_example_row_quoted :
    flatCsvLines
        [⟨"D54803", some "Doe, John", some "45", none, none, none, none, []⟩] =
      ["cdcr_number,name,age,admission_date,current_location,commitment_county,parole_eligible_date,num_parole_hearings",
       "D54803,\"Doe, John\",45,,,,,0"] ∧
    explodedCsvLines
        [⟨"D54803", some "Doe, John", some "45", none, none, none, none, []⟩] =
      Except.ok ["cdcr_number,inmate_name,date,action,status,outcome"] :=
  ⟨rfl, rfl⟩

/-- C6: the exploded export either produces all of its rows or the caller
gets the failure (`Except.error`); in particular a string hearing payload
that does not decode to a JSON object makes the whole export fail loudly
instead of returning a silently truncated row set. -/
theorem malformed_hearing_payload_fails_loudly :
    (∀ results : List InmateRecord,
      (∃ rows, exportParoleRows results = Except.ok rows) ∨
      (∃ msg, exportParoleRows results = Except.error msg)) ∧
    (∀ (results : List InmateRecord) (r : InmateRecord) (s : String),
      r ∈ results → HearingEntry.serialized s ∈ r.board_of_parole_hearings →
      decodesToObj s = false →
      ∃ msg, exportParoleRows results = Except.error msg) := by
  constructor
  · intro results
    cases h : exportParoleRows results with
    | ok rows => exact Or.inl ⟨rows, rfl⟩
    | error msg => exact Or.inr ⟨msg, rfl⟩
  · intro results r s hr hs hdec
    have hentry : ∃ m, entryRow r (HearingEntry.serialized s) = Except.error m := by
      simp only [decodesToObj] at hdec
      simp only [entryRow]
      cases hp : jsonParse s with
      | none => exact ⟨"json.decoder.JSONDecodeError", rfl⟩
      | some v =>
        cases v with
        | obj members => rw [hp] at hdec; cases hdec
        | null => exact ⟨"AttributeError", rfl⟩
        | bool b => exact ⟨"AttributeError", rfl⟩
        | num lexeme => exact ⟨"AttributeError", rfl⟩
        | str s2 => exact ⟨"AttributeError", rfl⟩
        | arr items => exact ⟨"AttributeError", rfl⟩
    rcases hentry with ⟨m, hm⟩
    rcases list_mapM_error_of_mem (entryRow r) r.board_of_parole_hearings
      (HearingEntry.serialized s) hs m hm with ⟨m2, hm2⟩
    have hrec : recordParoleRows r = Except.error m2 := hm2
    rcases list_mapM_error_of_mem recordParoleRows results r hr m2 hrec with
      ⟨m3, hm3⟩
    exact ⟨m3, by rw [exportParoleRows, hm3]; rfl⟩

/-- C6 witness: a record whose hearings list holds the undecodable payload
`"garbage"`. -/
theorem malformed_hearing_payload_fails_loudly_witness :
    ∃ msg,
      exportParoleRows
        [⟨"X", none, none, none, none, none, none,
          [HearingEntry.serialized "garbage"]⟩] = Except.error msg :=
  malformed_hearing_payload_fails_loudly.2
    [⟨"X", none, none, none, none, none, none,
      [HearingEntry.serialized "garbage"]⟩]
    ⟨"X", none, none, none, none, none, none,
      [HearingEntry.serialized "garbage"]⟩
    "garbage" (by simp) (by simp) (by decide)

/-- C8: the flat CSV's first line is exactly its fixed eight-column header,
and whenever the exploded hearings CSV is produced its first line is exactly
its fixed six-column header. -/
theorem export_headers_fixed (results : List InmateRecord) :
    (flatCsvLines results).head? =
      some "cdcr_number,name,age,admission_date,current_location,commitment_county,parole_eligible_date,num_parole_hearings" ∧
    ∀ ls, explodedCsvLines results = Except.ok ls →
      ls.head? = some "cdcr_number,inmate_name,date,action,status,outcome" := by
  constructor
  · rfl
  · intro ls hls
    rw [explodedCsvLines] at hls
    cases h : exportParoleRows results with
    | ok rows =>
      rw [h] at hls
      cases hls
      rfl
    | error msg => rw [h] at hls; cases hls

/-- C8 witness: the empty record list — the flat file is just its header and
the exploded file is just its header. -/
theorem export_headers_fixed_witness :
    (flatCsvLines ([] : List InmateRecord)).head? =
      some "cdcr_number,name,age,admission_date,current_location,commitment_county,parole_eligible_date,num_parole_hearings" ∧
    List.head? ["cdcr_number,inmate_name,date,action,status,outcome"] =
      some "cdcr_number,inmate_name,date,action,status,outcome" :=
  ⟨(export_headers_fixed []).1,
   (export_headers_fixed []).2
     ["cdcr_number,inmate_name,date,action,status,outcome"] rfl⟩

/-- C9: with the driver injected, the collector emits one record per
identifier in order even when lookups fail; a failed lookup yields the
placeholder record (identifier kept, all optional fields absent, empty
hearings list) and the flat CSV still has one data row per identifier. -/
theorem driver_failure_placeholder_and_continue
    (fetch : String → Option RawBag) (cdcr_numbers : List String) :
    (search_multiple_cdcr_numbers_driver fetch cdcr_numbers).length =
      cdcr_numbers.length ∧
    (flatCsvLines (search_multiple_cdcr_numbers_driver fetch cdcr_numbers)).length =
      cdcr_numbers.length + 1 ∧
    ∀ (i : Nat) (c : String), cdcr_numbers[i]? = some c → fetch c = none →
      (search_multiple_cdcr_numbers_driver fetch cdcr_numbers)[i]? =
        some { cdcr_number := c, name := none, age := none,
               admission_date := none, current_location := none,
               commitment_county := none, parole_eligible_date := none,
               board_of_parole_hearings := [] } := by
  refine ⟨by simp [search_multiple_cdcr_numbers_driver],
          by simp [flatCsvLines, search_multiple_cdcr_numbers_driver], ?_⟩
  intro i c hc hf
  rw [search_multiple_cdcr_numbers_driver, List.getElem?_map, hc]
  show some (search_cdcr_number_driver fetch c) = _
  rw [search_cdcr_number_driver, hf]
  rfl

/-- C9 witness: the spec's example — `["A11111", "B22222"]` with a driver
that fails on `B22222`: two records, two flat data rows, and the second
record is the placeholder for `B22222`. -/
theorem driver_failure_placeholder_and_continue_witness :
    (search_multiple_cdcr_numbers_driver
        (fun s => if s = "A11111"
          then some ⟨some "One, Name", some "40", none, none, none, none, some []⟩
          else none)
        ["A11111", "B22222"]).length = 2 ∧
    (flatCsvLines (search_multiple_cdcr_numbers_driver
        (fun s => if s = "A11111"
          then some ⟨some "One, Name", some "40", none, none, none, none, some []⟩
          else none)
        ["A11111", "B22222"])).length = 3 ∧
    (search_multiple_cdcr_numbers_driver
        (fun s => if s = "A11111"
          then some ⟨some "One, Name", some "40", none, none, none, none, some []⟩
          else none)
        ["A11111", "B22222"])[1]? =
      some { cdcr_number := "B22222", name := none, age := none,
             admission_date := none, current_location := none,
             commitment_county := none, parole_eligible_date := none,
             board_of_parole_hearings := [] } := by
  have h := driver_failure_placeholder_and_continue
    (fun s => if s = "A11111"
      then some ⟨some "One, Name", some "40", none, none, none, none, some []⟩
      else none)
    ["A11111", "B22222"]
  exact ⟨h.1, h.2.1, h.2.2 1 "B22222" rfl (by decide)⟩

/-! ## Parser inverts renderer (text-level JSON round trip)

The lemmas below prove that `jsonParse` (the `json.loads` model) recovers
exactly the value that `renderVal` (the `json.dump` model) printed, for the
documents this exporter emits. -/

mutual

/-- Recursion fuel sufficient for `parseVal` on a rendered value. -/
def fuelFor : JsonVal → Nat
  | JsonVal.null => 1
  | JsonVal.bool _ => 1
  | JsonVal.num _ => 1
  | JsonVal.str _ => 1
  | JsonVal.arr [] => 2
  | JsonVal.arr (v :: vs) => 2 + fuelForItems (v :: vs)
  | JsonVal.obj [] => 2
  | JsonVal.obj (p :: ps) => 2 + fuelForPairs (p :: ps)

/-- Fuel for a nonempty run of array items. -/
def fuelForItems : List JsonVal → Nat
  | [] => 0
  | v :: vs => fuelFor v + 1 + fuelForItems vs

/-- Fuel for a nonempty run of object members. -/
def fuelForPairs : List (String × JsonVal) → Nat
  | [] => 0
  | p :: ps => fuelFor p.2 + 1 + fuelForPairs ps

end

/-- The escaped character data of a string body, as emitted inside a JSON
string literal. -/
def escListData (cs : List Char) : List Char :=
  (cs.map (fun c => (jsonEscapeChar c).data)).flatten

/-- The characters of a joined string list. -/
theorem string_join_data (l : List String) :
    (String.join l).data = (l.map String.data).flatten := by
  have haux : ∀ (l : List String) (acc : String),
      (List.foldl (fun r s => r ++ s) acc l).data =
        acc.data ++ (l.map String.data).flatten := by
    intro l
    induction l with
    | nil => intro acc; simp
    | cons a as ih =>
      intro acc
      simp [List.foldl_cons, ih (acc ++ a), List.append_assoc]
  exact haux l ""

/-- The characters of `spaces n`: `n` blanks. -/
theorem spaces_data (n : Nat) : (spaces n).data = List.replicate n ' ' := by
  rw [spaces, string_join_data]
  induction n with
  | zero => rfl
  | succ k ih => simp_all [List.replicate_succ]

/-- Blanks are JSON whitespace. -/
theorem spaces_all_ws (n : Nat) : ∀ c ∈ (spaces n).data, jsonWs c = true := by
  rw [spaces_data]
  intro c hc
  rw [List.eq_of_mem_replicate hc]
  rfl

/-- `skipWs` passes over any all-whitespace prefix. -/
theorem skipWs_append_ws (ws cs : List Char)
    (h : ∀ c ∈ ws, jsonWs c = true) : skipWs (ws ++ cs) = skipWs cs := by
  induction ws with
  | nil => rfl
  | cons a as ih =>
    rw [List.cons_append, skipWs, List.dropWhile_cons,
        h a (List.mem_cons_self a as)]
    exact ih (fun c hc => h c (List.mem_cons_of_mem a hc))

/-- `skipWs` drops one leading whitespace character. -/
theorem skipWs_cons_ws (c : Char) (cs : List Char) (h : jsonWs c = true) :
    skipWs (c :: cs) = skipWs cs := by
  rw [skipWs, List.dropWhile_cons, h]
  rfl

/-- `skipWs` keeps a non-whitespace head. -/
theorem skipWs_cons_not_ws (c : Char) (cs : List Char) (h : jsonWs c = false) :
    skipWs (c :: cs) = c :: cs := by
  simp [skipWs, List.dropWhile_cons, h]

/-- `parseVal` only looks at its input through `skipWs`. -/
theorem parseVal_congr (fuel : Nat) (cs1 cs2 : List Char)
    (h : skipWs cs1 = skipWs cs2) : parseVal fuel cs1 = parseVal fuel cs2 := by
  cases fuel with
  | zero => rfl
  | succ f => simp only [parseVal, h]

/-- `parseArrItems` only looks at its input through `skipWs` (its first step
is `parseVal`). -/
theorem parseArrItems_congr (fuel : Nat) (cs1 cs2 : List Char)
    (h : skipWs cs1 = skipWs cs2) :
    parseArrItems fuel cs1 = parseArrItems fuel cs2 := by
  cases fuel with
  | zero => rfl
  | succ f => simp only [parseArrItems, parseVal_congr f cs1 cs2 h]

/-- `parseObjItems` only looks at its input through `skipWs`. -/
theorem parseObjItems_congr (fuel : Nat) (cs1 cs2 : List Char)
    (h : skipWs cs1 = skipWs cs2) :
    parseObjItems fuel cs1 = parseObjItems fuel cs2 := by
  cases fuel with
  | zero => rfl
  | succ f => simp only [parseObjItems, h]

/-- `String.intercalate`'s worker distributes over a pre-appended
accumulator. -/
theorem intercalate_go_append (s : String) (t : List String)
    (acc1 acc2 : String) :
    String.intercalate.go (acc1 ++ acc2) s t =
      acc1 ++ String.intercalate.go acc2 s t := by
  induction t generalizing acc2 with
  | nil => rfl
  | cons a as ih =>
    show String.intercalate.go (acc1 ++ acc2 ++ s ++ a) s as =
      acc1 ++ String.intercalate.go acc2 s (a :: as)
    have h3 : acc1 ++ acc2 ++ s ++ a = acc1 ++ (acc2 ++ s ++ a) := by
      simp [String.append_assoc]
    rw [h3, ih (acc2 ++ s ++ a)]
    rfl

/-- `intercalate` over a list of two or more strings, one step. -/
theorem intercalate_cons_cons (s a b : String) (t : List String) :
    String.intercalate s (a :: b :: t) =
      a ++ s ++ String.intercalate s (b :: t) := by
  show String.intercalate.go a s (b :: t) = _
  have h : String.intercalate.go a s (b :: t) =
      String.intercalate.go (a ++ s ++ b) s t := rfl
  rw [h]
  have h2 : a ++ s ++ b = (a ++ s) ++ b := rfl
  rw [h2, intercalate_go_append s t (a ++ s) b]
  rfl

/-- `intercalate` over a single string. -/
theorem intercalate_singleton (s a : String) :
    String.intercalate s [a] = a := rfl

/-- `hexDigitVal` inverts `hexDigitChar` on one hex digit. -/
theorem hexDigitVal_hexDigitChar : ∀ k, k < 16 →
    hexDigitVal (hexDigitChar k) = some k := by decide

/-- Every escaped character occupies at least one output character. -/
theorem jsonEscapeChar_length_pos (c : Char) :
    1 ≤ (jsonEscapeChar c).data.length := by
  unfold jsonEscapeChar
  split_ifs <;> simp [hex4]

/-- An escaped string body is at least as long as the source text. -/
theorem escListData_length_ge (cs : List Char) :
    cs.length ≤ (escListData cs).length := by
  induction cs with
  | nil => simp [escListData]
  | cons c cs ih =>
    have h := jsonEscapeChar_length_pos c
    simp only [escListData, List.map_cons, List.flatten_cons,
      List.length_append, List.length_cons]
    simp only [escListData] at ih
    omega

/-- The characters of a rendered JSON string literal. -/
theorem jsonQuote_data (s : String) :
    (jsonQuote s).data = '"' :: (escListData s.data ++ ['"']) := by
  simp only [jsonQuote, string_join_data, escListData, List.map_map,
        String.data_append, List.append_assoc]
  rfl

/-- `parseStrBody` inverts the escaper: reading an escaped body up to the
closing quote recovers the source text, leaving the rest untouched. -/
theorem parseStrBody_esc (cs : List Char) :
    ∀ (rest : List Char) (fuel : Nat), fuel ≥ cs.length + 1 →
      parseStrBody fuel (escListData cs ++ '"' :: rest) =
        some (String.mk cs, rest) := by
  induction cs with
  | nil =>
    intro rest fuel hfuel
    cases fuel with
    | zero => omega
    | succ f => rfl
  | cons c cs ih =>
    intro rest fuel hfuel
    cases fuel with
    | zero => omega
    | succ f =>
      have hf : f ≥ cs.length + 1 := by
        simp only [List.length_cons] at hfuel; omega
      have hih := ih rest f hf
      have hesc : escListData (c :: cs) ++ '"' :: rest =
          (jsonEscapeChar c).data ++ (escListData cs ++ '"' :: rest) := by
        simp [escListData, List.append_assoc]
      rw [hesc]
      by_cases h1 : c = '"'
      · subst h1
        show parseStrBody (f + 1)
          ('\\' :: '"' :: (escListData cs ++ '"' :: rest)) = _
        simp [parseStrBody, hih, String.ext_iff]
      · by_cases h2 : c = '\\'
        · subst h2
          show parseStrBody (f + 1)
            ('\\' :: '\\' :: (escListData cs ++ '"' :: rest)) = _
          simp [parseStrBody, hih, String.ext_iff]
        · by_cases h3 : c = '\n'
          · subst h3
            show parseStrBody (f + 1)
              ('\\' :: 'n' :: (escListData cs ++ '"' :: rest)) = _
            simp [parseStrBody, hih, String.ext_iff]
          · by_cases h4 : c = '\x0d'
            · subst h4
              show parseStrBody (f + 1)
                ('\\' :: 'r' :: (escListData cs ++ '"' :: rest)) = _
              simp [parseStrBody, hih, String.ext_iff]
            · by_cases h5 : c = '\t'
              · subst h5
                show parseStrBody (f + 1)
                  ('\\' :: 't' :: (escListData cs ++ '"' :: rest)) = _
                simp [parseStrBody, hih, String.ext_iff]
              · by_cases h6 : c = '\x08'
                · subst h6
                  show parseStrBody (f + 1)
                    ('\\' :: 'b' :: (escListData cs ++ '"' :: rest)) = _
                  simp [parseStrBody, hih, String.ext_iff]
                · by_cases h7 : c = '\x0c'
                  · subst h7
                    show parseStrBody (f + 1)
                      ('\\' :: 'f' :: (escListData cs ++ '"' :: rest)) = _
                    simp [parseStrBody, hih, String.ext_iff]
                  · by_cases h8 : c.toNat < 32
                    · have hdata : (jsonEscapeChar c).data =
                          '\\' :: 'u' ::
                            [hexDigitChar (c.toNat / 4096 % 16),
                             hexDigitChar (c.toNat / 256 % 16),
                             hexDigitChar (c.toNat / 16 % 16),
                             hexDigitChar (c.toNat % 16)] := by
                        simp [jsonEscapeChar, h1, h2, h3, h4, h5, h6, h7, h8,
                              hex4]
                      rw [hdata]
                      show parseStrBody (f + 1)
                        ('\\' :: 'u' ::
                          (hexDigitChar (c.toNat / 4096 % 16) ::
                           hexDigitChar (c.toNat / 256 % 16) ::
                           hexDigitChar (c.toNat / 16 % 16) ::
                           hexDigitChar (c.toNat % 16) ::
                           (escListData cs ++ '"' :: rest))) = _
                      have e1 := hexDigitVal_hexDigitChar
                        (c.toNat / 4096 % 16) (Nat.mod_lt _ (by omega))
                      have e2 := hexDigitVal_hexDigitChar
                        (c.toNat / 256 % 16) (Nat.mod_lt _ (by omega))
                      have e3 := hexDigitVal_hexDigitChar
                        (c.toNat / 16 % 16) (Nat.mod_lt _ (by omega))
                      have e4 := hexDigitVal_hexDigitChar
                        (c.toNat % 16) (Nat.mod_lt _ (by omega))
                      have harith :
                          ((c.toNat / 4096 % 16 * 16 + c.toNat / 256 % 16) * 16 +
                            c.toNat / 16 % 16) * 16 + c.toNat % 16 = c.toNat := by
                        omega
                      simp [parseStrBody, e1, e2, e3, e4, harith, hih,
                            String.ext_iff]
                    · have hdata : (jsonEscapeChar c).data = [c] := by
                        simp [jsonEscapeChar, h1, h2, h3, h4, h5, h6, h7, h8]
                      rw [hdata]
                      show parseStrBody (f + 1)
                        (c :: (escListData cs ++ '"' :: rest)) = _
                      have h32 : ¬c.toNat < 32 := by omega
                      simp [parseStrBody, h1, h2, h32, hih, String.ext_iff]

/-- Reading back a rendered, comma-newline-separated run of array items up
to the closing bracket recovers the items, given that each item parses back
from its own rendering. -/
theorem parseArrItems_render (ind : Nat) :
    ∀ vs : List JsonVal,
      (∀ v ∈ vs, ∀ (rest : List Char) (fuel : Nat), fuelFor v ≤ fuel →
        parseVal fuel ((renderVal (ind + 2) v).data ++ rest) = some (v, rest)) →
      vs ≠ [] →
      ∀ (rest : List Char) (fuel : Nat), fuelForItems vs ≤ fuel →
        parseArrItems fuel
          ((String.intercalate ",\n" (renderItems (ind + 2) vs)).data ++
            '\n' :: ((spaces ind).data ++ ']' :: rest)) = some (vs, rest) := by
  intro vs
  induction vs with
  | nil => intro _ hne; exact absurd rfl hne
  | cons v vs2 ih =>
    intro hrec hne rest fuel hfuel
    have hrecv := hrec v (List.mem_cons_self v vs2)
    cases vs2 with
    | nil =>
      rw [show fuelForItems [v] = fuelFor v + 1 from rfl] at hfuel
      cases fuel with
      | zero => omega
      | succ f =>
        have hfv : fuelFor v ≤ f := by omega
        have hlines : String.intercalate ",\n" (renderItems (ind + 2) [v]) =
            spaces (ind + 2) ++ renderVal (ind + 2) v := by
          rw [show renderItems (ind + 2) [v] =
            [spaces (ind + 2) ++ renderVal (ind + 2) v] from rfl,
            intercalate_singleton]
        rw [hlines]
        have hpv : parseVal f
            ((spaces (ind + 2) ++ renderVal (ind + 2) v).data ++
              '\n' :: ((spaces ind).data ++ ']' :: rest)) =
            some (v, '\n' :: ((spaces ind).data ++ ']' :: rest)) := by
          have hcg : skipWs
              ((spaces (ind + 2) ++ renderVal (ind + 2) v).data ++
                '\n' :: ((spaces ind).data ++ ']' :: rest)) =
              skipWs ((renderVal (ind + 2) v).data ++
                '\n' :: ((spaces ind).data ++ ']' :: rest)) := by
            rw [String.data_append, List.append_assoc,
                skipWs_append_ws _ _ (spaces_all_ws (ind + 2))]
          rw [parseVal_congr f _ _ hcg]
          exact hrecv _ f hfv
        have hsk : skipWs ('\n' :: ((spaces ind).data ++ ']' :: rest)) =
            ']' :: rest := by
          rw [skipWs_cons_ws '\n' _ (by decide),
              skipWs_append_ws _ _ (spaces_all_ws ind),
              skipWs_cons_not_ws ']' _ (by decide)]
        simp only [parseArrItems]
        rw [hpv]
        simp [hsk]
    | cons w t =>
      rw [show fuelForItems (v :: w :: t) =
        fuelFor v + 1 + fuelForItems (w :: t) from rfl] at hfuel
      cases fuel with
      | zero => omega
      | succ f =>
        have hfv : fuelFor v ≤ f := by omega
        have hft : fuelForItems (w :: t) ≤ f := by omega
        have hlines : String.intercalate ",\n" (renderItems (ind + 2) (v :: w :: t)) =
            (spaces (ind + 2) ++ renderVal (ind + 2) v) ++ ",\n" ++
              String.intercalate ",\n" (renderItems (ind + 2) (w :: t)) := by
          rw [show renderItems (ind + 2) (v :: w :: t) =
            (spaces (ind + 2) ++ renderVal (ind + 2) v) ::
              (spaces (ind + 2) ++ renderVal (ind + 2) w) ::
                renderItems (ind + 2) t from rfl]
          rw [intercalate_cons_cons]
          rfl
        rw [hlines]
        have hdata : ((spaces (ind + 2) ++ renderVal (ind + 2) v) ++ ",\n" ++
              String.intercalate ",\n" (renderItems (ind + 2) (w :: t))).data ++
              '\n' :: ((spaces ind).data ++ ']' :: rest) =
            (spaces (ind + 2)).data ++
              ((renderVal (ind + 2) v).data ++
                ',' :: '\n' ::
                  ((String.intercalate ",\n" (renderItems (ind + 2) (w :: t))).data ++
                    '\n' :: ((spaces ind).data ++ ']' :: rest))) := by
          simp [List.append_assoc]
        rw [hdata]
        have hpv : parseVal f
            ((spaces (ind + 2)).data ++
              ((renderVal (ind + 2) v).data ++
                ',' :: '\n' ::
                  ((String.intercalate ",\n" (renderItems (ind + 2) (w :: t))).data ++
                    '\n' :: ((spaces ind).data ++ ']' :: rest)))) =
            some (v, ',' :: '\n' ::
              ((String.intercalate ",\n" (renderItems (ind + 2) (w :: t))).data ++
                '\n' :: ((spaces ind).data ++ ']' :: rest))) := by
          rw [parseVal_congr f _ _
            (skipWs_append_ws _ _ (spaces_all_ws (ind + 2)))]
          exact hrecv _ f hfv
        have hrest : parseArrItems f
            ('\n' :: ((String.intercalate ",\n" (renderItems (ind + 2) (w :: t))).data ++
              '\n' :: ((spaces ind).data ++ ']' :: rest))) = some (w :: t, rest) := by
          rw [parseArrItems_congr f _ _ (skipWs_cons_ws '\n' _ (by decide))]
          exact ih (fun u hu => hrec u (List.mem_cons_of_mem v hu))
            (by simp) rest f hft
        simp only [parseArrItems]
        rw [hpv]
        simp [show ∀ cs, skipWs (',' :: cs) = ',' :: cs from
          fun cs => skipWs_cons_not_ws ',' cs (by decide), hrest]

/-- Reading back a rendered run of `"key": value` object members up to the
closing brace recovers the members, given that each value parses back from
its own rendering. -/
theorem parseObjItems_render (ind : Nat) :
    ∀ ms : List (String × JsonVal),
      (∀ p ∈ ms, ∀ (rest : List Char) (fuel : Nat), fuelFor p.2 ≤ fuel →
        parseVal fuel ((renderVal (ind + 2) p.2).data ++ rest) =
          some (p.2, rest)) →
      ms ≠ [] →
      ∀ (rest : List Char) (fuel : Nat), fuelForPairs ms ≤ fuel →
        parseObjItems fuel
          ((String.intercalate ",\n" (renderPairs (ind + 2) ms)).data ++
            '\n' :: ((spaces ind).data ++ rbrace :: rest)) = some (ms, rest) := by
  intro ms
  induction ms with
  | nil => intro _ hne; exact absurd rfl hne
  | cons p ms2 ih =>
    obtain ⟨k, v⟩ := p
    intro hrec hne rest fuel hfuel
    have hrecv := hrec (k, v) (List.mem_cons_self (k, v) ms2)
    cases ms2 with
    | nil =>
      rw [show fuelForPairs [(k, v)] = fuelFor v + 1 from rfl] at hfuel
      cases fuel with
      | zero => omega
      | succ f =>
        have hfv : fuelFor v ≤ f := by omega
        have hlines : String.intercalate ",\n" (renderPairs (ind + 2) [(k, v)]) =
            spaces (ind + 2) ++ jsonQuote k ++ ": " ++ renderVal (ind + 2) v := by
          rw [show renderPairs (ind + 2) [(k, v)] =
            [spaces (ind + 2) ++ jsonQuote k ++ ": " ++ renderVal (ind + 2) v]
            from rfl, intercalate_singleton]
        rw [hlines]
        have hdata : (spaces (ind + 2) ++ jsonQuote k ++ ": " ++
              renderVal (ind + 2) v).data ++
              '\n' :: ((spaces ind).data ++ rbrace :: rest) =
            (spaces (ind + 2)).data ++
              ('"' :: (escListData k.data ++
                '"' :: ':' :: ' ' ::
                  ((renderVal (ind + 2) v).data ++
                    '\n' :: ((spaces ind).data ++ rbrace :: rest)))) := by
          simp [jsonQuote_data, List.append_assoc]
        rw [hdata]
        have hsks : skipWs ((spaces (ind + 2)).data ++
            ('"' :: (escListData k.data ++
              '"' :: ':' :: ' ' ::
                ((renderVal (ind + 2) v).data ++
                  '\n' :: ((spaces ind).data ++ rbrace :: rest))))) =
            '"' :: (escListData k.data ++
              '"' :: ':' :: ' ' ::
                ((renderVal (ind + 2) v).data ++
                  '\n' :: ((spaces ind).data ++ rbrace :: rest))) := by
          rw [skipWs_append_ws _ _ (spaces_all_ws (ind + 2)),
              skipWs_cons_not_ws '"' _ (by decide)]
        have hkey : parseStrBody
            ((escListData k.data ++
              '"' :: ':' :: ' ' ::
                ((renderVal (ind + 2) v).data ++
                  '\n' :: ((spaces ind).data ++ rbrace :: rest))).length + 1)
            (escListData k.data ++
              '"' :: ':' :: ' ' ::
                ((renderVal (ind + 2) v).data ++
                  '\n' :: ((spaces ind).data ++ rbrace :: rest))) =
            some (String.mk k.data,
              ':' :: ' ' ::
                ((renderVal (ind + 2) v).data ++
                  '\n' :: ((spaces ind).data ++ rbrace :: rest))) := by
          apply parseStrBody_esc
          have := escListData_length_ge k.data
          simp only [List.length_append, List.length_cons]
          omega
        have hpv : parseVal f
            (' ' :: ((renderVal (ind + 2) v).data ++
              '\n' :: ((spaces ind).data ++ rbrace :: rest))) =
            some (v, '\n' :: ((spaces ind).data ++ rbrace :: rest)) := by
          rw [parseVal_congr f _ _ (skipWs_cons_ws ' ' _ (by decide))]
          exact hrecv _ f hfv
        have hsk2 : skipWs ('\n' :: ((spaces ind).data ++ rbrace :: rest)) =
            rbrace :: rest := by
          rw [skipWs_cons_ws '\n' _ (by decide),
              skipWs_append_ws _ _ (spaces_all_ws ind),
              skipWs_cons_not_ws rbrace _ (by decide)]
        simp only [parseObjItems]
        rw [hsks]
        simp only [reduceIte]
        rw [hkey]
        simp only [show ∀ cs, skipWs (':' :: cs) = ':' :: cs from
          fun cs => skipWs_cons_not_ws ':' cs (by decide)]
        rw [hpv]
        simp [hsk2, show rbrace ≠ ',' from by decide]
    | cons q ms3 =>
      rw [show fuelForPairs ((k, v) :: q :: ms3) =
        fuelFor v + 1 + fuelForPairs (q :: ms3) from rfl] at hfuel
      cases fuel with
      | zero => omega
      | succ f =>
        have hfv : fuelFor v ≤ f := by omega
        have hft : fuelForPairs (q :: ms3) ≤ f := by omega
        have hlines : String.intercalate ",\n"
              (renderPairs (ind + 2) ((k, v) :: q :: ms3)) =
            (spaces (ind + 2) ++ jsonQuote k ++ ": " ++ renderVal (ind + 2) v) ++
              ",\n" ++
              String.intercalate ",\n" (renderPairs (ind + 2) (q :: ms3)) := by
          obtain ⟨k2, v2⟩ := q
          rw [show renderPairs (ind + 2) ((k, v) :: (k2, v2) :: ms3) =
            (spaces (ind + 2) ++ jsonQuote k ++ ": " ++ renderVal (ind + 2) v) ::
              (spaces (ind + 2) ++ jsonQuote k2 ++ ": " ++
                renderVal (ind + 2) v2) ::
                renderPairs (ind + 2) ms3 from rfl]
          rw [intercalate_cons_cons]
          rfl
        rw [hlines]
        have hdata : ((spaces (ind + 2) ++ jsonQuote k ++ ": " ++
              renderVal (ind + 2) v) ++ ",\n" ++
              String.intercalate ",\n" (renderPairs (ind + 2) (q :: ms3))).data ++
              '\n' :: ((spaces ind).data ++ rbrace :: rest) =
            (spaces (ind + 2)).data ++
              ('"' :: (escListData k.data ++
                '"' :: ':' :: ' ' ::
                  ((renderVal (ind + 2) v).data ++
                    ',' :: '\n' ::
                      ((String.intercalate ",\n"
                        (renderPairs (ind + 2) (q :: ms3))).data ++
                        '\n' :: ((spaces ind).data ++ rbrace :: rest))))) := by
          simp [jsonQuote_data, List.append_assoc]
        rw [hdata]
        have hsks : skipWs ((spaces (ind + 2)).data ++
            ('"' :: (escListData k.data ++
              '"' :: ':' :: ' ' ::
                ((renderVal (ind + 2) v).data ++
                  ',' :: '\n' ::
                    ((String.intercalate ",\n"
                      (renderPairs (ind + 2) (q :: ms3))).data ++
                      '\n' :: ((spaces ind).data ++ rbrace :: rest)))))) =
            '"' :: (escListData k.data ++
              '"' :: ':' :: ' ' ::
                ((renderVal (ind + 2) v).data ++
                  ',' :: '\n' ::
                    ((String.intercalate ",\n"
                      (renderPairs (ind + 2) (q :: ms3))).data ++
                      '\n' :: ((spaces ind).data ++ rbrace :: rest)))) := by
          rw [skipWs_append_ws _ _ (spaces_all_ws (ind + 2)),
              skipWs_cons_not_ws '"' _ (by decide)]
        have hkey : parseStrBody
            ((escListData k.data ++
              '"' :: ':' :: ' ' ::
                ((renderVal (ind + 2) v).data ++
                  ',' :: '\n' ::
                    ((String.intercalate ",\n"
                      (renderPairs (ind + 2) (q :: ms3))).data ++
                      '\n' :: ((spaces ind).data ++ rbrace :: rest)))).length + 1)
            (escListData k.data ++
              '"' :: ':' :: ' ' ::
                ((renderVal (ind + 2) v).data ++
                  ',' :: '\n' ::
                    ((String.intercalate ",\n"
                      (renderPairs (ind + 2) (q :: ms3))).data ++
                      '\n' :: ((spaces ind).data ++ rbrace :: rest)))) =
            some (String.mk k.data,
              ':' :: ' ' ::
                ((renderVal (ind + 2) v).data ++
                  ',' :: '\n' ::
                    ((String.intercalate ",\n"
                      (renderPairs (ind + 2) (q :: ms3))).data ++
                      '\n' :: ((spaces ind).data ++ rbrace :: rest)))) := by
          apply parseStrBody_esc
          have := escListData_length_ge k.data
          simp only [List.length_append, List.length_cons]
          omega
        have hpv : parseVal f
            (' ' :: ((renderVal (ind + 2) v).data ++
              ',' :: '\n' ::
                ((String.intercalate ",\n"
                  (renderPairs (ind + 2) (q :: ms3))).data ++
                  '\n' :: ((spaces ind).data ++ rbrace :: rest)))) =
            some (v, ',' :: '\n' ::
              ((String.intercalate ",\n"
                (renderPairs (ind + 2) (q :: ms3))).data ++
                '\n' :: ((spaces ind).data ++ rbrace :: rest))) := by
          rw [parseVal_congr f _ _ (skipWs_cons_ws ' ' _ (by decide))]
          exact hrecv _ f hfv
        have hrest : parseObjItems f
            ('\n' :: ((String.intercalate ",\n"
              (renderPairs (ind + 2) (q :: ms3))).data ++
              '\n' :: ((spaces ind).data ++ rbrace :: rest))) =
            some (q :: ms3, rest) := by
          rw [parseObjItems_congr f _ _ (skipWs_cons_ws '\n' _ (by decide))]
          exact ih (fun u hu => hrec u (List.mem_cons_of_mem (k, v) hu))
            (by simp) rest f hft
        simp only [parseObjItems]
        rw [hsks]
        simp only [reduceIte]
        rw [hkey]
        simp only [show ∀ cs, skipWs (':' :: cs) = ':' :: cs from
          fun cs => skipWs_cons_not_ws ':' cs (by decide)]
        rw [hpv]
        simp [show ∀ cs, skipWs (',' :: cs) = ',' :: cs from
          fun cs => skipWs_cons_not_ws ',' cs (by decide), hrest]

/-- A rendered document value starts with a non-whitespace character that is
not the array closer (`'n'`, `'"'`, `'['` or the opening brace). -/
theorem renderVal_head (ind : Nat) (v : JsonVal) (hv : GoodVal v) :
    ∃ c tail, (renderVal ind v).data = c :: tail ∧ jsonWs c = false ∧
      c ≠ ']' := by
  cases hv with
  | null => exact ⟨'n', ['u', 'l', 'l'], rfl, by decide, by decide⟩
  | str s =>
    refine ⟨'"', escListData s.data ++ ['"'], ?_, by decide, by decide⟩
    rw [show renderVal ind (JsonVal.str s) = jsonQuote s from rfl,
        jsonQuote_data]
  | arr items h =>
    cases items with
    | nil => exact ⟨'[', [']'], rfl, by decide, by decide⟩
    | cons v vs =>
      have hd : (renderVal ind (JsonVal.arr (v :: vs))).data =
          '[' :: ('\n' ::
            ((String.intercalate ",\n" (renderItems (ind + 2) (v :: vs))).data ++
              '\n' :: ((spaces ind).data ++ [']']))) := by
        rw [show renderVal ind (JsonVal.arr (v :: vs)) =
          "[\n" ++ String.intercalate ",\n" (renderItems (ind + 2) (v :: vs)) ++
            "\n" ++ spaces ind ++ "]" from rfl]
        simp
      exact ⟨'[', _, hd, by decide, by decide⟩
  | obj members h =>
    cases members with
    | nil => exact ⟨lbrace, [rbrace], rfl, by decide, by decide⟩
    | cons p ps =>
      have hd : (renderVal ind (JsonVal.obj (p :: ps))).data =
          lbrace :: ('\n' ::
            ((String.intercalate ",\n" (renderPairs (ind + 2) (p :: ps))).data ++
              '\n' :: ((spaces ind).data ++ [rbrace]))) := by
        rw [show renderVal ind (JsonVal.obj (p :: ps)) =
          "\x7b\n" ++ String.intercalate ",\n" (renderPairs (ind + 2) (p :: ps)) ++
            "\n" ++ spaces ind ++ "\x7d" from rfl]
        simp [show ("\x7b\n" : String).data = [lbrace, '\n'] from rfl,
              show ("\x7d" : String).data = [rbrace] from rfl]
        decide
      exact ⟨lbrace, _, hd, by decide, by decide⟩

/-- The rendered, separated lines of a nonempty item run start with the
first line's indentation followed by the first item's rendering. -/
theorem arr_lines_decomp (ind : Nat) (v : JsonVal) (vs : List JsonVal) :
    ∃ Y : List Char, ∀ X : List Char,
      (String.intercalate ",\n" (renderItems (ind + 2) (v :: vs))).data ++ X =
        (spaces (ind + 2)).data ++
          ((renderVal (ind + 2) v).data ++ (Y ++ X)) := by
  cases vs with
  | nil =>
    refine ⟨[], fun X => ?_⟩
    rw [show renderItems (ind + 2) [v] =
      [spaces (ind + 2) ++ renderVal (ind + 2) v] from rfl,
      intercalate_singleton]
    simp
  | cons w t =>
    refine ⟨',' :: '\n' ::
      (String.intercalate ",\n" (renderItems (ind + 2) (w :: t))).data,
      fun X => ?_⟩
    rw [show renderItems (ind + 2) (v :: w :: t) =
      (spaces (ind + 2) ++ renderVal (ind + 2) v) ::
        (spaces (ind + 2) ++ renderVal (ind + 2) w) ::
          renderItems (ind + 2) t from rfl,
      intercalate_cons_cons]
    simp only [String.data_append, List.append_assoc]
    rfl

/-- The rendered, separated lines of a nonempty member run start with the
first line's indentation followed by the opening quote of the first key. -/
theorem obj_lines_decomp (ind : Nat) (p : String × JsonVal)
    (ps : List (String × JsonVal)) :
    ∃ Z : List Char, ∀ X : List Char,
      (String.intercalate ",\n" (renderPairs (ind + 2) (p :: ps))).data ++ X =
        (spaces (ind + 2)).data ++ ('"' :: (Z ++ X)) := by
  obtain ⟨k, v⟩ := p
  cases ps with
  | nil =>
    refine ⟨escListData k.data ++
      '"' :: ':' :: ' ' :: (renderVal (ind + 2) v).data, fun X => ?_⟩
    rw [show renderPairs (ind + 2) [(k, v)] =
      [spaces (ind + 2) ++ jsonQuote k ++ ": " ++ renderVal (ind + 2) v]
      from rfl, intercalate_singleton]
    simp [jsonQuote_data, List.append_assoc]
  | cons q qs =>
    obtain ⟨k2, v2⟩ := q
    refine ⟨escListData k.data ++
      '"' :: ':' :: ' ' :: ((renderVal (ind + 2) v).data ++
        ',' :: '\n' ::
          (String.intercalate ",\n"
            (renderPairs (ind + 2) ((k2, v2) :: qs))).data), fun X => ?_⟩
    rw [show renderPairs (ind + 2) ((k, v) :: (k2, v2) :: qs) =
      (spaces (ind + 2) ++ jsonQuote k ++ ": " ++ renderVal (ind + 2) v) ::
        (spaces (ind + 2) ++ jsonQuote k2 ++ ": " ++ renderVal (ind + 2) v2) ::
          renderPairs (ind + 2) qs from rfl,
      intercalate_cons_cons]
    simp only [String.data_append, jsonQuote_data, List.append_assoc,
      List.cons_append, List.nil_append]
    rfl

/-- The parser inverts the renderer on every document value: reading a
rendered value consumes exactly its text, returning the value and the
untouched remainder. -/
theorem parseVal_render (v : JsonVal) (hv : GoodVal v) :
    ∀ (ind : Nat) (rest : List Char) (fuel : Nat), fuelFor v ≤ fuel →
      parseVal fuel ((renderVal ind v).data ++ rest) = some (v, rest) := by
  induction hv with
  | null =>
    intro ind rest fuel hfuel
    cases fuel with
    | zero => simp [fuelFor] at hfuel
    | succ f => rfl
  | str s =>
    intro ind rest fuel hfuel
    cases fuel with
    | zero => simp [fuelFor] at hfuel
    | succ f =>
      have h1 : (renderVal ind (JsonVal.str s)).data ++ rest =
          '"' :: (escListData s.data ++ '"' :: rest) := by
        rw [show renderVal ind (JsonVal.str s) = jsonQuote s from rfl,
            jsonQuote_data]
        simp
      rw [h1]
      have happ := parseStrBody_esc s.data rest
        ((escListData s.data ++ '"' :: rest).length + 1)
        (by
          have := escListData_length_ge s.data
          simp only [List.length_append, List.length_cons]
          omega)
      simp only [parseVal]
      rw [skipWs_cons_not_ws '"' _ (by decide)]
      simp only [List.length_append, List.length_cons] at happ
      simp [happ]
  | arr items h ih =>
    intro ind rest fuel hfuel
    cases items with
    | nil =>
      cases fuel with
      | zero => simp [fuelFor] at hfuel
      | succ f =>
        cases f with
        | zero => simp [fuelFor] at hfuel
        | succ f2 => rfl
    | cons v vs =>
      rw [show fuelFor (JsonVal.arr (v :: vs)) =
        2 + fuelForItems (v :: vs) from rfl] at hfuel
      cases fuel with
      | zero => omega
      | succ f =>
      cases f with
      | zero => omega
      | succ f2 =>
      have hf2 : fuelForItems (v :: vs) ≤ f2 := by omega
      obtain ⟨Y, hY⟩ := arr_lines_decomp ind v vs
      have hdata : (renderVal ind (JsonVal.arr (v :: vs))).data ++ rest =
          '[' :: '\n' ::
            ((String.intercalate ",\n" (renderItems (ind + 2) (v :: vs))).data ++
              '\n' :: ((spaces ind).data ++ ']' :: rest)) := by
        rw [show renderVal ind (JsonVal.arr (v :: vs)) =
          "[\n" ++ String.intercalate ",\n" (renderItems (ind + 2) (v :: vs)) ++
            "\n" ++ spaces ind ++ "]" from rfl]
        simp [List.append_assoc]
      rw [hdata]
      show parseArrBody (f2 + 1)
        ('\n' ::
          ((String.intercalate ",\n" (renderItems (ind + 2) (v :: vs))).data ++
            '\n' :: ((spaces ind).data ++ ']' :: rest))) =
        some (JsonVal.arr (v :: vs), rest)
      obtain ⟨c0, tail0, hhead, hws, hnb⟩ :=
        renderVal_head (ind + 2) v (h v (List.mem_cons_self v vs))
      have hskip : skipWs ('\n' ::
          ((String.intercalate ",\n" (renderItems (ind + 2) (v :: vs))).data ++
            '\n' :: ((spaces ind).data ++ ']' :: rest))) =
          c0 :: (tail0 ++
            (Y ++ ('\n' :: ((spaces ind).data ++ ']' :: rest)))) := by
        rw [skipWs_cons_ws '\n' _ (by decide),
            hY ('\n' :: ((spaces ind).data ++ ']' :: rest)),
            skipWs_append_ws _ _ (spaces_all_ws (ind + 2)), hhead,
            List.cons_append, skipWs_cons_not_ws c0 _ hws]
      have hitems : parseArrItems f2 ('\n' ::
          ((String.intercalate ",\n" (renderItems (ind + 2) (v :: vs))).data ++
            '\n' :: ((spaces ind).data ++ ']' :: rest))) =
          some (v :: vs, rest) := by
        rw [parseArrItems_congr f2 _ _ (skipWs_cons_ws '\n' _ (by decide))]
        exact parseArrItems_render ind (v :: vs)
          (fun u hu rest2 fuel2 hfu => ih u hu (ind + 2) rest2 fuel2 hfu)
          (by simp) rest f2 hf2
      simp only [parseArrBody]
      rw [hskip]
      simp [hnb, hitems]
  | obj members h ih =>
    intro ind rest fuel hfuel
    cases members with
    | nil =>
      cases fuel with
      | zero => simp [fuelFor] at hfuel
      | succ f =>
        cases f with
        | zero => simp [fuelFor] at hfuel
        | succ f2 => rfl
    | cons p ps =>
      rw [show fuelFor (JsonVal.obj (p :: ps)) =
        2 + fuelForPairs (p :: ps) from rfl] at hfuel
      cases fuel with
      | zero => omega
      | succ f =>
      cases f with
      | zero => omega
      | succ f2 =>
      have hf2 : fuelForPairs (p :: ps) ≤ f2 := by omega
      obtain ⟨Z, hZ⟩ := obj_lines_decomp ind p ps
      have hdata : (renderVal ind (JsonVal.obj (p :: ps))).data ++ rest =
          lbrace :: '\n' ::
            ((String.intercalate ",\n" (renderPairs (ind + 2) (p :: ps))).data ++
              '\n' :: ((spaces ind).data ++ rbrace :: rest)) := by
        rw [show renderVal ind (JsonVal.obj (p :: ps)) =
          "\x7b\n" ++ String.intercalate ",\n" (renderPairs (ind + 2) (p :: ps)) ++
            "\n" ++ spaces ind ++ "\x7d" from rfl]
        simp [show ("\x7b\n" : String).data = [lbrace, '\n'] from rfl,
              show ("\x7d" : String).data = [rbrace] from rfl,
              List.append_assoc]
        decide
      rw [hdata]
      show parseObjBody (f2 + 1)
        ('\n' ::
          ((String.intercalate ",\n" (renderPairs (ind + 2) (p :: ps))).data ++
            '\n' :: ((spaces ind).data ++ rbrace :: rest))) =
        some (JsonVal.obj (p :: ps), rest)
      have hskip : skipWs ('\n' ::
          ((String.intercalate ",\n" (renderPairs (ind + 2) (p :: ps))).data ++
            '\n' :: ((spaces ind).data ++ rbrace :: rest))) =
          '"' :: (Z ++ ('\n' :: ((spaces ind).data ++ rbrace :: rest))) := by
        rw [skipWs_cons_ws '\n' _ (by decide),
            hZ ('\n' :: ((spaces ind).data ++ rbrace :: rest)),
            skipWs_append_ws _ _ (spaces_all_ws (ind + 2)),
            skipWs_cons_not_ws '"' _ (by decide)]
      have hmembers : parseObjItems f2 ('\n' ::
          ((String.intercalate ",\n" (renderPairs (ind + 2) (p :: ps))).data ++
            '\n' :: ((spaces ind).data ++ rbrace :: rest))) =
          some (p :: ps, rest) := by
        rw [parseObjItems_congr f2 _ _ (skipWs_cons_ws '\n' _ (by decide))]
        exact parseObjItems_render ind (p :: ps)
          (fun q hq rest2 fuel2 hfq => ih q hq (ind + 2) rest2 fuel2 hfq)
          (by simp) rest f2 hf2
      simp only [parseObjBody]
      rw [hskip]
      simp [show ('"' : Char) ≠ rbrace from by decide, hmembers]

/-- Length of an indentation prefix. -/
theorem spaces_length (n : Nat) : (spaces n).data.length = n := by
  rw [spaces_data]
  simp

/-- The rendered item run is at least as long as the fuel its parse needs. -/
theorem fuelForItems_le_len (ind : Nat) :
    ∀ vs : List JsonVal,
      (∀ v ∈ vs, ∀ i : Nat, fuelFor v ≤ (renderVal i v).data.length) →
      vs ≠ [] →
      fuelForItems vs ≤
        (String.intercalate ",\n" (renderItems (ind + 2) vs)).data.length := by
  intro vs
  induction vs with
  | nil => intro _ hne; exact absurd rfl hne
  | cons v vs2 ih =>
    intro hrec hne
    have hv := hrec v (List.mem_cons_self v vs2) (ind + 2)
    cases vs2 with
    | nil =>
      rw [show fuelForItems [v] = fuelFor v + 1 from rfl,
          show renderItems (ind + 2) [v] =
            [spaces (ind + 2) ++ renderVal (ind + 2) v] from rfl,
          intercalate_singleton]
      simp only [String.data_append, List.length_append, spaces_length]
      omega
    | cons w t =>
      have hih := ih (fun u hu i => hrec u (List.mem_cons_of_mem v hu) i)
        (by simp)
      have hl : String.intercalate ",\n" (renderItems (ind + 2) (v :: w :: t)) =
          (spaces (ind + 2) ++ renderVal (ind + 2) v) ++ ",\n" ++
            String.intercalate ",\n" (renderItems (ind + 2) (w :: t)) := by
        rw [show renderItems (ind + 2) (v :: w :: t) =
          (spaces (ind + 2) ++ renderVal (ind + 2) v) ::
            (spaces (ind + 2) ++ renderVal (ind + 2) w) ::
              renderItems (ind + 2) t from rfl,
          intercalate_cons_cons]
        rfl
      rw [show fuelForItems (v :: w :: t) =
        fuelFor v + 1 + fuelForItems (w :: t) from rfl, hl]
      simp only [String.data_append, List.length_append, spaces_length]
      have h2 : (",\n" : String).data.length = 2 := rfl
      omega

/-- The rendered member run is at least as long as the fuel its parse
needs. -/
theorem fuelForPairs_le_len (ind : Nat) :
    ∀ ms : List (String × JsonVal),
      (∀ p ∈ ms, ∀ i : Nat, fuelFor p.2 ≤ (renderVal i p.2).data.length) →
      ms ≠ [] →
      fuelForPairs ms ≤
        (String.intercalate ",\n" (renderPairs (ind + 2) ms)).data.length := by
  intro ms
  induction ms with
  | nil => intro _ hne; exact absurd rfl hne
  | cons p ms2 ih =>
    obtain ⟨k, v⟩ := p
    intro hrec hne
    have hv : fuelFor v ≤ (renderVal (ind + 2) v).data.length :=
      hrec (k, v) (List.mem_cons_self (k, v) ms2) (ind + 2)
    cases ms2 with
    | nil =>
      rw [show fuelForPairs [(k, v)] = fuelFor v + 1 from rfl,
          show renderPairs (ind + 2) [(k, v)] =
            [spaces (ind + 2) ++ jsonQuote k ++ ": " ++ renderVal (ind + 2) v]
            from rfl,
          intercalate_singleton]
      simp only [String.data_append, List.length_append, spaces_length]
      omega
    | cons q ms3 =>
      obtain ⟨k2, v2⟩ := q
      have hih := ih (fun u hu i => hrec u (List.mem_cons_of_mem (k, v) hu) i)
        (by simp)
      have hl : String.intercalate ",\n"
            (renderPairs (ind + 2) ((k, v) :: (k2, v2) :: ms3)) =
          (spaces (ind + 2) ++ jsonQuote k ++ ": " ++ renderVal (ind + 2) v) ++
            ",\n" ++
            String.intercalate ",\n" (renderPairs (ind + 2) ((k2, v2) :: ms3)) := by
        rw [show renderPairs (ind + 2) ((k, v) :: (k2, v2) :: ms3) =
          (spaces (ind + 2) ++ jsonQuote k ++ ": " ++ renderVal (ind + 2) v) ::
            (spaces (ind + 2) ++ jsonQuote k2 ++ ": " ++
              renderVal (ind + 2) v2) ::
              renderPairs (ind + 2) ms3 from rfl,
          intercalate_cons_cons]
        rfl
      rw [show fuelForPairs ((k, v) :: (k2, v2) :: ms3) =
        fuelFor v + 1 + fuelForPairs ((k2, v2) :: ms3) from rfl, hl]
      simp only [String.data_append, List.length_append, List.length_cons,
        List.length_nil, spaces_length]
      omega

/-- A rendered document value is at least as long as the fuel its parse
needs. -/
theorem fuelFor_le_len (v : JsonVal) (hv : GoodVal v) :
    ∀ ind : Nat, fuelFor v ≤ (renderVal ind v).data.length := by
  induction hv with
  | null =>
    intro ind
    simp [fuelFor, show renderVal ind JsonVal.null = "null" from rfl]
  | str s =>
    intro ind
    rw [show renderVal ind (JsonVal.str s) = jsonQuote s from rfl,
        jsonQuote_data]
    simp [fuelFor]
  | arr items h ih =>
    intro ind
    cases items with
    | nil =>
      simp [fuelFor, show renderVal ind (JsonVal.arr []) = "[]" from rfl]
    | cons v vs =>
      have hitems := fuelForItems_le_len ind (v :: vs)
        (fun u hu i => ih u hu i) (by simp)
      rw [show fuelFor (JsonVal.arr (v :: vs)) =
        2 + fuelForItems (v :: vs) from rfl,
        show renderVal ind (JsonVal.arr (v :: vs)) =
          "[\n" ++ String.intercalate ",\n" (renderItems (ind + 2) (v :: vs)) ++
            "\n" ++ spaces ind ++ "]" from rfl]
      simp only [String.data_append, List.length_append, List.length_cons,
        List.length_nil, spaces_length]
      omega
  | obj members h ih =>
    intro ind
    cases members with
    | nil =>
      simp [fuelFor, show renderVal ind (JsonVal.obj []) = "\x7b\x7d" from rfl]
    | cons p ps =>
      have hmembers := fuelForPairs_le_len ind (p :: ps)
        (fun u hu i => ih u hu i) (by simp)
      rw [show fuelFor (JsonVal.obj (p :: ps)) =
        2 + fuelForPairs (p :: ps) from rfl,
        show renderVal ind (JsonVal.obj (p :: ps)) =
          "\x7b\n" ++ String.intercalate ",\n" (renderPairs (ind + 2) (p :: ps)) ++
            "\n" ++ spaces ind ++ "\x7d" from rfl]
      simp only [String.data_append, List.length_append, List.length_cons,
        List.length_nil, spaces_length]
      omega

/-- `jsonParse` (the `json.loads` model) recovers any well-formed document
value from its `json.dump` rendering. -/
theorem jsonParse_render (v : JsonVal) (hv : GoodVal v) :
    jsonParse (renderVal 0 v) = some v := by
  have hlen : fuelFor v ≤ 4 * (renderVal 0 v).length + 16 := by
    have h := fuelFor_le_len v hv 0
    have h2 : (renderVal 0 v).length = (renderVal 0 v).data.length := rfl
    omega
  have hp := parseVal_render v hv 0 [] (4 * (renderVal 0 v).length + 16) hlen
  rw [List.append_nil] at hp
  simp [jsonParse, hp, skipWs]

/-- The values this exporter writes: `null`, strings, member objects and
arrays only. -/
theorem optToJson_good (o : Option String) : GoodVal (optToJson o) := by
  cases o with
  | none => exact GoodVal.null
  | some s => exact GoodVal.str s

/-- Serialized hearings-list elements are well-formed document values. -/
theorem entryToJson_good (e : HearingEntry) : GoodVal (entryToJson e) := by
  cases e with
  | structured hrg =>
    refine GoodVal.obj _ ?_
    intro p hp
    simp only [hearingPairs, List.map_cons, List.map_nil, List.mem_cons,
      List.not_mem_nil, or_false] at hp
    rcases hp with hp | hp | hp | hp <;> rw [hp] <;> exact optToJson_good _
  | serialized s => exact GoodVal.str s

/-- A serialized inmate record is a well-formed document value. -/
theorem recordToJson_good (r : InmateRecord) : GoodVal (recordToJson r) := by
  refine GoodVal.obj _ ?_
  intro p hp
  simp only [recordMembers, recordOptionalPairs, List.map_cons, List.map_nil,
    List.cons_append, List.nil_append, List.mem_cons, List.not_mem_nil,
    or_false] at hp
  rcases hp with hp | hp | hp | hp | hp | hp | hp | hp
  · rw [hp]; exact GoodVal.str _
  · rw [hp]; exact optToJson_good _
  · rw [hp]; exact optToJson_good _
  · rw [hp]; exact optToJson_good _
  · rw [hp]; exact optToJson_good _
  · rw [hp]; exact optToJson_good _
  · rw [hp]; exact optToJson_good _
  · rw [hp]
    refine GoodVal.arr _ ?_
    intro u hu
    rcases List.mem_map.mp hu with ⟨e, _, he⟩
    rw [← he]
    exact entryToJson_good e

/-- The document of a whole record list is well formed. -/
theorem recordsToJson_good (results : List InmateRecord) :
    GoodVal (recordsToJson results) := by
  refine GoodVal.arr _ ?_
  intro u hu
  rcases List.mem_map.mp hu with ⟨r, _, hr⟩
  rw [← hr]
  exact recordToJson_good r

/-- C3: parsing the text written by `export_to_json` (with the `json.loads`
model) reconstructs the record list exactly, field for field, hearings order
included — the full JSON export is a lossless round trip. -/
theorem json_export_roundtrip (results : List InmateRecord) :
    (jsonParse (jsonContent results)).bind recordsFromJson = some results := by
  rw [jsonContent, jsonParse_render _ (recordsToJson_good results)]
  simp [recordsToJson, recordsFromJson,
        list_mapM_map_some recordFromJson recordToJson recordFromJson_recordToJson,
        option_mapM_loop_map recordFromJson recordToJson recordFromJson_recordToJson]
